import Mathlib

set_option maxRecDepth 4000

/-!
Verification of the fusion layer of the oneDNN graph backend.

Part 1 models the pattern-based graph matching and rewriting engine together
with the three transformation patterns registered in
`src/backend/dnnl/patterns/pool_fusion.cpp`.  The engine itself
(pattern model, registry ranking, matcher, rewriter) is not part of the
source tree under scrutiny, so it is modelled from the specification; the
pattern definitions, priorities, engine-kind restrictions and result kinds
are translated directly from `pool_fusion.cpp`.

Part 2 models `conv_fwd_core_op_t` shape inference and construction from
`src/backend/graph_compiler/core/src/ops/convolution.cpp`, and the
`annotate_fusion_break` pass from
`src/backend/graph_compiler/core/src/compiler/ir/graph/transform/quantization/annotate_fuse_break.cpp`.
-/

namespace Fusion

/-- Partition kinds used by the pool fusion patterns (from
`impl::partition_kind` as used in `pool_fusion.cpp`). -/
inductive PartitionKind where
  | pooling_post_ops
  | quantized_pooling_post_ops
deriving DecidableEq

/-- Operation kinds of the host graph that appear in `pool_fusion.cpp`,
plus a fused-node kind produced by the rewriter and a `Relu` kind used as
an unrelated external consumer in tests. -/
inductive OpKind where
  | AvgPool
  | MaxPool
  | Add
  | Multiply
  | Maximum
  | Minimum
  | Divide
  | Subtract
  | Dequantize
  | Quantize
  | StaticReshape
  | StaticTranspose
  | Relu
  | fused (k : PartitionKind)
deriving DecidableEq

/-- Quantization granularity attribute of a Quantize/Dequantize node. -/
inductive QType where
  | per_tensor
  | per_channel
deriving DecidableEq

/-- Kernel objects produced by the registered kernel factories
(`float_pooling_fwd` and `quantized_pooling` in `pool_fusion.cpp`). -/
inductive Kernel where
  | float_pooling_fwd
  | quantized_pooling
deriving DecidableEq

/-- Hardware/engine targets (`engine_kind::cpu`, `engine_kind::gpu`). -/
inductive EngineKind where
  | cpu
  | gpu
deriving DecidableEq

/-- Modelled from the spec: an operation node of the host graph — a kind
tag, attributes consulted by decision predicates (quantization granularity
and zero points), an ordered sequence of input value edges, an ordered
sequence of output value edges, and an optionally attached kernel
(present only on fused nodes).  The host-graph data model is not part of
the source files under src/, so it follows the spec's Graph Model. -/
structure HOp where
  kind : OpKind
  qtype : QType
  zps : List Int
  inputs : List Nat
  outputs : List Nat
  kernel : Option Kernel
deriving DecidableEq

/-- Modelled from the spec: the host dataflow graph, an arena of operation
nodes identified by their position; value edges are `Nat` ids connecting
one producer output slot to any number of consumer input slots. -/
structure HGraph where
  ops : List HOp
deriving DecidableEq

/-- A producer-side requirement attached to one input slot of a pattern
node (used for `in_edge(1, pdequant_other, 0)` in case 3 of the int8 pool
patterns): the producer of that slot must have one of the given kinds and
satisfy the given decision predicates. -/
structure SideReq where
  slot : Nat
  kinds : List OpKind
  preds : List (HOp → Bool)

/-- A single pattern node: permitted kind set, attached decision
predicates, the input slot through which it consumes the previous pattern
node's output, and producer-side requirements on further input slots. -/
structure PSingle where
  kinds : List OpKind
  preds : List (HOp → Bool)
  inSlot : Nat
  side : List SideReq

/-- Modelled from the spec: a pattern element of the Pattern Model — a
single node, an alternation over alternative sub-chains (tried in declared
order), or a repetition of a sub-chain with inclusive min/max bounds
(`none` max meaning unbounded).  The pattern-builder implementation
(`utils/pm/pbuilder.hpp`) is not under src/, so this follows the spec. -/
inductive PElem where
  | single (s : PSingle)
  | alternation (alts : List (List PSingle))
  | repetition (body : List PSingle) (minRep : Nat) (maxRep : Option Nat)

/-- A pattern graph: a chain of pattern elements, each consuming the
previous element's output value; the first element binds the anchor. -/
abbrev Pattern := List PElem

/-- Index of the producer op of value `v`, if any. -/
def producerIdx (g : HGraph) (v : Nat) : Option Nat :=
  g.ops.findIdx? (fun o => o.outputs.contains v)

/-- Indices of all ops consuming value `v` (at any input slot), in graph
order. -/
def consumersOf (g : HGraph) (v : Nat) : List Nat :=
  (List.range g.ops.length).filter fun i =>
    match g.ops[i]? with
    | some o => o.inputs.contains v
    | none => false

/-- Indices of ops whose input slot `slot` is exactly value `v`, in graph
order (candidate hosts for the next chained pattern node). -/
def consumersAt (g : HGraph) (v slot : Nat) : List Nat :=
  (List.range g.ops.length).filter fun i =>
    ((g.ops[i]?).bind (fun o => o.inputs[slot]?)) == some v

/-- Modelled from the spec: match the producer-side requirements of a
bound node (producer-direction traversal of side input ports).  Returns
the matched producer indices. -/
def matchSides (g : HGraph) (op : HOp) : List SideReq → Option (List Nat)
  | [] => some []
  | r :: rest =>
    match op.inputs[r.slot]? with
    | none => none
    | some v =>
      match producerIdx g v with
      | none => none
      | some pidx =>
        match g.ops[pidx]? with
        | none => none
        | some pop =>
          if pop.kind ∈ r.kinds ∧ (r.preds.all fun p => p pop) then
            (matchSides g op rest).map (fun l => pidx :: l)
          else none

/-- Modelled from the spec: bind one single pattern node to the host op at
index `i` — the op's kind must be in the permitted set, every attached
decision predicate must hold, and side producers must match; on success
returns the matched indices (side producers first, then the op) and the
op's output value. -/
def matchSingleOpAt (g : HGraph) (s : PSingle) (i : Nat) : Option (List Nat × Nat) :=
  match g.ops[i]? with
  | none => none
  | some op =>
    if op.kind ∈ s.kinds ∧ (s.preds.all fun p => p op) then
      match matchSides g op s.side with
      | none => none
      | some sids =>
        match op.outputs[0]? with
        | none => none
        | some vout => some (sids ++ [i], vout)
    else none

/-- Modelled from the spec: bind a single pattern node against the
consumers of value `v`, trying candidate consumers in graph order and
taking the first that matches. -/
def matchSingleAt (g : HGraph) (s : PSingle) (v : Nat) : Option (List Nat × Nat) :=
  (consumersAt g v s.inSlot).findSome? (fun i => matchSingleOpAt g s i)

/-- Modelled from the spec: match a chain of single pattern nodes starting
from value `v`, each node consuming the previous node's output. -/
def matchSingleChain (g : HGraph) : List PSingle → Nat → Option (List Nat × Nat)
  | [], v => some ([], v)
  | s :: rest, v =>
    match matchSingleAt g s v with
    | none => none
    | some (os, v1) =>
      match matchSingleChain g rest v1 with
      | none => none
      | some (os2, v2) => some (os ++ os2, v2)

/-- Modelled from the spec: try each alternative of an alternation in
declared order; the first alternative that matches wins, and the chosen
alternative's index is recorded; if none match, the alternation fails. -/
def altsFirst (g : HGraph) : List (List PSingle) → Nat → Option (Nat × List Nat × Nat)
  | [], _ => none
  | a :: rest, v =>
    match matchSingleChain g a v with
    | some (os, v1) => some (0, os, v1)
    | none => (altsFirst g rest v).map fun r => (r.1 + 1, r.2)

/-- Modelled from the spec: greedily chain sub-template matches of a
repetition, stopping when the sub-template fails to match further or the
cap is reached; returns the per-repeat matched indices and the final
output value (the input value when zero repeats match). -/
def repGreedy (g : HGraph) (body : List PSingle) : Nat → Nat → List (List Nat) × Nat
  | 0, v => ([], v)
  | cap + 1, v =>
    match matchSingleChain g body v with
    | none => ([], v)
    | some (os, v1) =>
      let r := repGreedy g body cap v1
      (os :: r.1, r.2)

/-- The effective repeat cap of a repetition: its declared maximum, or the
host graph's node count for an unbounded repetition (an acyclic host graph
cannot support more repeats than it has nodes). -/
def capOf (g : HGraph) (mx : Option Nat) : Nat :=
  match mx with
  | some m => m
  | none => g.ops.length

/-- Modelled from the spec: match one pattern element against the host
graph starting from value `v`.  A repetition whose greedy chain ends below
the declared minimum fails and the partial chain is discarded. -/
def matchElemAt (g : HGraph) (e : PElem) (v : Nat) : Option (List Nat × Nat) :=
  match e with
  | .single s => matchSingleAt g s v
  | .alternation alts => (altsFirst g alts v).map fun r => r.2
  | .repetition body mn mx =>
    let r := repGreedy g body (capOf g mx) v
    if r.1.length < mn then none else some (r.1.flatten, r.2)

/-- Modelled from the spec: match a chain of pattern elements starting
from value `v`. -/
def matchChainAt (g : HGraph) : Pattern → Nat → Option (List Nat × Nat)
  | [], v => some ([], v)
  | e :: rest, v =>
    match matchElemAt g e v with
    | none => none
    | some (os, v1) =>
      match matchChainAt g rest v1 with
      | none => none
      | some (os2, v2) => some (os ++ os2, v2)

/-- Modelled from the spec: structural match of a whole pattern with the
anchor host node bound to the pattern's first-appended (single) node;
returns the matched host indices and the exposed output value. -/
def structMatch (g : HGraph) (pat : Pattern) (anchor : Nat) : Option (List Nat × Nat) :=
  match pat with
  | .single s :: rest =>
    match matchSingleOpAt g s anchor with
    | none => none
    | some (os, v) =>
      match matchChainAt g rest v with
      | none => none
      | some (os2, v2) => some (os ++ os2, v2)
  | _ => none

/-- Modelled from the spec: the boundary-safety invariant — every output
value of a matched op other than the exposed output value is internal-only
and must have all its consumers inside the match. -/
def boundaryOk (g : HGraph) (matched : List Nat) (vout : Nat) : Bool :=
  matched.all fun i =>
    match g.ops[i]? with
    | none => false
    | some o =>
      o.outputs.all fun v =>
        v == vout || (consumersOf g v).all (fun c => matched.contains c)

/-- Modelled from the spec: full match attempt — a structural match that
violates the boundary-safety invariant is rejected as a plain no-match. -/
def matchAt (g : HGraph) (pat : Pattern) (anchor : Nat) : Option (List Nat × Nat) :=
  match structMatch g pat anchor with
  | none => none
  | some (os, v) => if boundaryOk g os v then some (os, v) else none

/-- A registered transformation pattern
(`DNNL_BACKEND_REGISTER_TRANSFORMATION_PATTERN`): name, priority, optional
engine-kind restriction, result partition kind, pattern graph, kernel
factory (which may fail to produce a kernel), and registration index. -/
structure RegPattern where
  name : String
  priority : Rat
  engineKind : Option EngineKind
  resultKind : PartitionKind
  pattern : Pattern
  factory : Option Kernel
  regIndex : Nat

/-- A registered pattern applies to a target iff its engine-kind
restriction is absent or equal to the target. -/
def applicable (tgt : EngineKind) (rp : RegPattern) : Bool :=
  match rp.engineKind with
  | none => true
  | some k => k == tgt

/-- Ranking order of registered patterns: strictly higher priority first,
ties broken by lower (earlier) registration index. -/
def rankBefore (a b : RegPattern) : Prop :=
  b.priority < a.priority ∨ (a.priority = b.priority ∧ a.regIndex ≤ b.regIndex)

instance (a b : RegPattern) : Decidable (rankBefore a b) := by
  unfold rankBefore; infer_instance

/-- Insert a pattern into a ranked list, keeping the ranking order. -/
def insertRanked (p : RegPattern) : List RegPattern → List RegPattern
  | [] => [p]
  | q :: rest => if rankBefore p q then p :: q :: rest else q :: insertRanked p rest

/-- Sort a list of registered patterns by ranking order. -/
def sortRanked : List RegPattern → List RegPattern
  | [] => []
  | p :: rest => insertRanked p (sortRanked rest)

/-- Modelled from the spec: `patterns_for(target)` of the Pattern Registry
— all registered patterns whose target restriction is unrestricted or
equal to the target, ordered by descending priority with ties broken by
registration order. -/
def patterns_for (regs : List RegPattern) (tgt : EngineKind) : List RegPattern :=
  sortRanked (regs.filter (applicable tgt))

/-- Input values of the matched region that are produced outside the
match (or have no producer); they become the fused node's inputs, in match
traversal order. -/
def externalInputs (g : HGraph) (matched : List Nat) : List Nat :=
  (matched.map fun i =>
    match g.ops[i]? with
    | none => []
    | some o =>
      o.inputs.filter fun v =>
        match producerIdx g v with
        | none => true
        | some p => !(matched.contains p)).flatten

/-- Modelled from the spec: the rewrite step — remove all matched host
nodes, insert one fused node tagged with the pattern's result kind, wired
to the original external producers and carrying the exposed output value,
with the produced kernel attached. -/
def rewriteGraph (g : HGraph) (rp : RegPattern) (m : List Nat × Nat) (k : Kernel) : HGraph :=
  let keep := ((List.range g.ops.length).filter (fun i => !(m.1.contains i))).filterMap
    (fun i => g.ops[i]?)
  ⟨keep ++ [⟨OpKind.fused rp.resultKind, QType.per_tensor, [], externalInputs g m.1, [m.2],
    some k⟩]⟩

/-- Modelled from the spec: commit of an accepted match — invoke the
kernel factory; on factory failure the commit fails and the graph is not
touched, otherwise the full replacement is performed. -/
def commitMatch (g : HGraph) (rp : RegPattern) (m : List Nat × Nat) : Option HGraph :=
  rp.factory.map (rewriteGraph g rp m)

/-- Try to match-and-commit a registered pattern at one anchor. -/
def tryPatternAt (g : HGraph) (rp : RegPattern) (a : Nat) : Option HGraph :=
  match matchAt g rp.pattern a with
  | none => none
  | some m => commitMatch g rp m

/-- Modelled from the spec: one driver step for a pattern — offer anchors
in graph order and commit at the first anchor where the pattern matches
and commits. -/
def applyOnce (g : HGraph) (rp : RegPattern) : Option HGraph :=
  (List.range g.ops.length).findSome? (tryPatternAt g rp)

/-- Modelled from the spec: run one pattern to exhaustion over the
residual graph (host rewrites strictly shrink the node count, so the node
count bounds the number of commits). -/
def runPattern : Nat → HGraph → RegPattern → HGraph
  | 0, g, _ => g
  | f + 1, g, rp =>
    match applyOnce g rp with
    | none => g
    | some g2 => runPattern f g2 rp

/-- Run one pattern to exhaustion, with fuel the current node count. -/
def runPatternFull (g : HGraph) (rp : RegPattern) : HGraph :=
  runPattern g.ops.length g rp

/-- Modelled from the spec: the driver — run the registry's applicable
patterns for a target, in ranked order, each to exhaustion. -/
def runRegistry (g : HGraph) (regs : List RegPattern) (tgt : EngineKind) : HGraph :=
  (patterns_for regs tgt).foldl runPatternFull g

/-- Modelled from the spec: decision predicate "is the quantization
granularity per-tensor" (`check_qtype_equal_to_per_tensor` from
`backend/dnnl/patterns/utils.hpp`, not under src/). -/
def check_qtype_equal_to_per_tensor (op : HOp) : Bool :=
  op.qtype == QType.per_tensor

/-- Modelled from the spec: decision predicate "are zero points all equal
to a given constant", instantiated at zero (`check_zps_values<0>` from
`backend/dnnl/patterns/utils.hpp`, not under src/). -/
def check_zps_all_zero (op : HOp) : Bool :=
  op.zps.all fun z => z == 0

/-- The binary elementwise kind set of `pool_post_ops_fusion`
(`Add, Multiply, Maximum, Minimum, Divide, Subtract`). -/
def binaryKinds : List OpKind :=
  [.Add, .Multiply, .Maximum, .Minimum, .Divide, .Subtract]

/-- The pattern graph of `pool_post_ops_fusion` (pool_fusion.cpp lines
44-70): an AvgPool/MaxPool alternation followed by a repetition, with
min 1 and unbounded max, of a binary elementwise sub-template. -/
def poolPostOpsPattern : Pattern :=
  [.single ⟨[.AvgPool, .MaxPool], [], 0, []⟩,
   .repetition [⟨binaryKinds, [], 0, []⟩] 1 none]

/-- The pattern graph of `int8_pool_binary_fusion_cpu` (pool_fusion.cpp
lines 93-157): per-tensor Dequantize, then AvgPool/MaxPool, then an
alternation of (1) per-tensor Quantize, (2) StaticReshape/StaticTranspose
then per-tensor Quantize, (3) Add with a Dequantize producer on input
slot 1 then per-tensor Quantize. -/
def int8PoolCpuPattern : Pattern :=
  [.single ⟨[.Dequantize], [check_qtype_equal_to_per_tensor], 0, []⟩,
   .single ⟨[.AvgPool, .MaxPool], [], 0, []⟩,
   .alternation
     [[⟨[.Quantize], [check_qtype_equal_to_per_tensor], 0, []⟩],
      [⟨[.StaticReshape, .StaticTranspose], [], 0, []⟩,
       ⟨[.Quantize], [check_qtype_equal_to_per_tensor], 0, []⟩],
      [⟨[.Add], [], 0, [⟨1, [.Dequantize], []⟩]⟩,
       ⟨[.Quantize], [check_qtype_equal_to_per_tensor], 0, []⟩]]]

/-- The pattern graph of `int8_pool_binary_fusion_gpu` (pool_fusion.cpp
lines 183-240): like the cpu variant but with no per-tensor predicates and
with an all-zero zero-points predicate on the side Dequantize of case 3. -/
def int8PoolGpuPattern : Pattern :=
  [.single ⟨[.Dequantize], [], 0, []⟩,
   .single ⟨[.AvgPool, .MaxPool], [], 0, []⟩,
   .alternation
     [[⟨[.Quantize], [], 0, []⟩],
      [⟨[.StaticReshape, .StaticTranspose], [], 0, []⟩, ⟨[.Quantize], [], 0, []⟩],
      [⟨[.Add], [], 0, [⟨1, [.Dequantize], [check_zps_all_zero]⟩]⟩,
       ⟨[.Quantize], [], 0, []⟩]]]

/-- The registry built by `pool_fusion.cpp`, in registration order:
`pool_post_ops_fusion` (priority 9.9, unrestricted,
`pooling_post_ops`, `float_pooling_fwd` factory),
`int8_pool_binary_fusion_cpu` (priority 10.0, cpu,
`quantized_pooling_post_ops`, `quantized_pooling` factory),
`int8_pool_binary_fusion_gpu` (priority 10.0, gpu,
`quantized_pooling_post_ops`, `quantized_pooling` factory). -/
def dnnlRegistry : List RegPattern :=
  [⟨"pool_post_ops_fusion", mkRat 99 10, none, .pooling_post_ops,
    poolPostOpsPattern, some .float_pooling_fwd, 0⟩,
   ⟨"int8_pool_binary_fusion_cpu", 10, some .cpu, .quantized_pooling_post_ops,
    int8PoolCpuPattern, some .quantized_pooling, 1⟩,
   ⟨"int8_pool_binary_fusion_gpu", 10, some .gpu, .quantized_pooling_post_ops,
    int8PoolGpuPattern, some .quantized_pooling, 2⟩]

/-- Host graph for the end-to-end scenario: Dequantize (per-tensor, input
edge 100, output 101) feeding MaxPool (output 102) feeding Quantize
(per-tensor, output edge 103). -/
def hostDeqPoolQuant : HGraph :=
  ⟨[⟨.Dequantize, .per_tensor, [], [100], [101], none⟩,
    ⟨.MaxPool, .per_tensor, [], [101], [102], none⟩,
    ⟨.Quantize, .per_tensor, [], [102], [103], none⟩]⟩

/-- Host graph on which both registered cpu-applicable patterns match:
Dequantize feeding MaxPool, a second Dequantize, an Add of both, and a
per-tensor Quantize (case 3 of the int8 pattern; the pool-then-Add chain
also matches `pool_post_ops_fusion`). -/
def hostDeqPoolAddQuant : HGraph :=
  ⟨[⟨.Dequantize, .per_tensor, [], [10], [11], none⟩,
    ⟨.MaxPool, .per_tensor, [], [11], [12], none⟩,
    ⟨.Dequantize, .per_tensor, [], [20], [21], none⟩,
    ⟨.Add, .per_tensor, [], [12, 21], [13], none⟩,
    ⟨.Quantize, .per_tensor, [], [13], [14], none⟩]⟩

/-- Host graph with a MaxPool followed by a chain of three binary
elementwise ops (Add, Multiply, Maximum). -/
def hostPoolBinChain3 : HGraph :=
  ⟨[⟨.MaxPool, .per_tensor, [], [1], [2], none⟩,
    ⟨.Add, .per_tensor, [], [2, 90], [3], none⟩,
    ⟨.Multiply, .per_tensor, [], [3, 91], [4], none⟩,
    ⟨.Maximum, .per_tensor, [], [4, 92], [5], none⟩]⟩

/-- Host graph with a lone MaxPool and no binary post-ops. -/
def hostPoolOnly : HGraph :=
  ⟨[⟨.MaxPool, .per_tensor, [], [1], [2], none⟩]⟩

/-- A pattern identical to `pool_post_ops_fusion` except that the
repetition's minimum is 0 instead of 1. -/
def poolPostOpsMin0 : Pattern :=
  [.single ⟨[.AvgPool, .MaxPool], [], 0, []⟩,
   .repetition [⟨binaryKinds, [], 0, []⟩] 0 none]

/-- Like `hostDeqPoolQuant` but with the Quantize using per-channel
granularity: the structure of the int8 cpu pattern is present but its
per-tensor decision predicate fails on the bound Quantize. -/
def hostPerChannel : HGraph :=
  ⟨[⟨.Dequantize, .per_tensor, [], [100], [101], none⟩,
    ⟨.MaxPool, .per_tensor, [], [101], [102], none⟩,
    ⟨.Quantize, .per_channel, [], [102], [103], none⟩]⟩

/-- Like `hostDeqPoolQuant` but with an extra external Relu consumer of
the MaxPool output (edge 102), which is internal-only in the int8
pattern: the structural match exists but boundary safety is violated. -/
def hostFanOut : HGraph :=
  ⟨[⟨.Dequantize, .per_tensor, [], [100], [101], none⟩,
    ⟨.MaxPool, .per_tensor, [], [101], [102], none⟩,
    ⟨.Quantize, .per_tensor, [], [102], [103], none⟩,
    ⟨.Relu, .per_tensor, [], [102], [104], none⟩]⟩

/-- A synthetic pattern of priority 9.9 matching a lone MaxPool,
registered first. -/
def rpLowPriority : RegPattern :=
  ⟨"P2", mkRat 99 10, none, .pooling_post_ops,
   [.single ⟨[.MaxPool], [], 0, []⟩], some .float_pooling_fwd, 0⟩

/-- A synthetic pattern of priority 10.0 matching a lone MaxPool,
registered second; its result kind distinguishes it from
`rpLowPriority`. -/
def rpHighPriority : RegPattern :=
  ⟨"P1", 10, none, .quantized_pooling_post_ops,
   [.single ⟨[.MaxPool], [], 0, []⟩], some .float_pooling_fwd, 1⟩

/-- The int8 cpu pattern registered with a kernel factory that fails to
produce a kernel. -/
def failingFactoryPattern : RegPattern :=
  ⟨"int8_pool_failing_factory", 10, some .cpu, .quantized_pooling_post_ops,
   int8PoolCpuPattern, none, 0⟩

end Fusion

namespace SC

/-- Tensor data types (`sc_data_type_t` values used in convolution.cpp). -/
inductive SCDtype where
  | u8
  | s8
  | s32
  | f32
  | bf16
  | undef
deriving DecidableEq

/-- Logical tensor details: plain dims and dtype. -/
structure TensorDetails where
  dims : List Int
  dtype : SCDtype
deriving DecidableEq

/-- Modelled from the spec: `is_dynamic_dim` and the owner graph's
`get_next_dynamic_placeholder` are not under src/.  Dynamic dimensions
are modelled as negative values (static dims are nonnegative) and a
freshly obtained placeholder as a fixed negative sentinel; every claim
below concerns only static shapes, on which these helpers are never
consulted. -/
def is_dynamic_dim (d : Int) : Bool :=
  decide (d < 0)

/-- Modelled from the spec: the dynamic-placeholder dimension produced by
the owner graph (see `is_dynamic_dim`). -/
def dynamic_dim_sentinel : Int := -1

/-- `conv_fwd_core_op_t::infer_out_dims` (convolution.cpp lines 62-123):
checks the 4D/5D rank asserts and the pads/stride length asserts
(COMPILE_ASSERT failure modelled as `none`), broadcasts length-1
pads/stride to all spatial dims, and computes out[0] = batch,
out[1] = output channels, out[i] = (i + pb + pe - k) / s + 1 with C
truncated integer division for every static spatial dim. -/
def infer_out_dims (input_dims weight_dims pads_begin pads_end stride : List Int) :
    Option (List Int) :=
  let ndims := input_dims.length
  if (ndims = 4 ∨ ndims = 5)
      ∧ ((weight_dims.length = 4 ∨ weight_dims.length = 5) ∧ weight_dims.length = ndims)
      ∧ (if ndims = 5 then pads_begin.length = 1 ∨ pads_begin.length = 3
         else pads_begin.length = 1 ∨ pads_begin.length = 2)
      ∧ (if ndims = 5 then pads_end.length = 1 ∨ pads_end.length = 3
         else pads_end.length = 1 ∨ pads_end.length = 2)
      ∧ (if ndims = 5 then stride.length = 1 ∨ stride.length = 3
         else stride.length = 1 ∨ stride.length = 2) then
    let pads_begin_dims := if pads_begin.length > 1 then pads_begin
      else List.replicate (ndims - 2) (pads_begin.getD 0 0)
    let pads_end_dims := if pads_end.length > 1 then pads_end
      else List.replicate (ndims - 2) (pads_end.getD 0 0)
    let stride_dims := if stride.length > 1 then stride
      else List.replicate (ndims - 2) (stride.getD 0 0)
    some ((List.range ndims).map fun i =>
      if i = 0 then input_dims.getD 0 0
      else if i = 1 then weight_dims.getD 0 0
      else if is_dynamic_dim (input_dims.getD i 0) || is_dynamic_dim (weight_dims.getD i 0)
          || is_dynamic_dim (pads_begin_dims.getD (i - 2) 0)
          || is_dynamic_dim (pads_end_dims.getD (i - 2) 0)
          || is_dynamic_dim (stride_dims.getD (i - 2) 0) then
        dynamic_dim_sentinel
      else
        Int.tdiv (input_dims.getD i 0 + pads_begin_dims.getD (i - 2) 0
            + pads_end_dims.getD (i - 2) 0 - weight_dims.getD i 0)
          (stride_dims.getD (i - 2) 0) + 1)
  else none

/-- `infer_auto_pad` (convolution.cpp lines 125-156): for every spatial
dim with static input/weight/stride, total padding is
(o - 1) * s + k - i with o = i (output spatial dims equal input spatial
dims); even totals split evenly, odd totals put the extra unit on
pads_end for SAME_UPPER and on pads_begin for SAME_LOWER.  Returns
(pads_begin, pads_end). -/
def infer_auto_pad (input_dims weight_dims stride : List Int) (is_same_upper : Bool) :
    List Int × List Int :=
  let ndims := input_dims.length
  let stride_dims := if stride.length > 1 then stride
    else List.replicate (ndims - 2) (stride.getD 0 0)
  let pairs := (List.range (ndims - 2)).map fun j =>
    let idim := input_dims.getD (j + 2) 0
    let wdim := weight_dims.getD (j + 2) 0
    let s := stride_dims.getD j 0
    if is_dynamic_dim idim || is_dynamic_dim wdim || is_dynamic_dim s then
      (dynamic_dim_sentinel, dynamic_dim_sentinel)
    else
      let total_pad := (idim - 1) * s + wdim - idim
      if total_pad % 2 = 0 then (Int.tdiv total_pad 2, Int.tdiv total_pad 2)
      else
        (if is_same_upper then Int.tdiv total_pad 2 else Int.tdiv total_pad 2 + 1,
         if is_same_upper then Int.tdiv total_pad 2 + 1 else Int.tdiv total_pad 2)
  (pairs.map Prod.fst, pairs.map Prod.snd)

/-- `conv_fwd_core_op_t::check_dtypes` (convolution.cpp lines 158-185) as
a Boolean predicate: COMPILE_ASSERT failures become `false`; a `undef`
out dtype means "not provided" and skips the output checks. -/
def check_dtypes (data_dtype weight_dtype out_dtype : SCDtype) : Bool :=
  if data_dtype = .u8 ∨ data_dtype = .s8 then
    decide (weight_dtype = .s8) && decide (out_dtype = .undef ∨ out_dtype = .s32)
  else if data_dtype = .bf16 then
    decide (weight_dtype = .bf16)
  else
    decide (data_dtype = .f32) && decide (weight_dtype = .f32)
      && decide (out_dtype = .undef ∨ out_dtype = .f32)

/-- `conv_fwd_core_op_t::infer_out_dtype` (convolution.cpp lines 30-39):
u8/s8 data with s8 weight yields s32, everything else yields f32. -/
def infer_out_dtype (input_dtype weight_dtype : SCDtype) : SCDtype :=
  if (input_dtype = .u8 ∨ input_dtype = .s8) ∧ weight_dtype = .s8 then .s32 else .f32

/-- The attribute map of a convolution op (`any_map_t` keys consulted by
the constructor); a `none` field means the key is absent. -/
structure ConvAttrs where
  strides : Option (List Int)
  auto_pad : Option String
  pads_begin : Option (List Int)
  pads_end : Option (List Int)
  paddings : Option (List Int)
deriving DecidableEq

/-- The part of a constructed `conv_fwd_core_op_t` the claims are about:
rank, the (possibly auto-pad-rewritten) attributes, and the outputs. -/
structure ConvOp where
  ndims : Nat
  attrs : ConvAttrs
  outputs : List TensorDetails
deriving DecidableEq

/-- `conv_fwd_core_op_t::conv_fwd_core_op_t` (convolution.cpp lines
187-235): requires exactly 2 inputs and a `strides` attribute; a VALID
auto_pad overwrites pads with zeros, SAME_UPPER/SAME_LOWER overwrite them
via `infer_auto_pad`; then pads_begin/pads_end are resolved (falling back
to symmetric `paddings`), the symmetric-padding assert `pads_begin ==
pads_end` is checked, the expected output shape is inferred (its asserts
may fail), and dtypes are checked.  Every COMPILE_ASSERT failure or
missing required attribute (`any_map_t::get` throws) is modelled as
`none`. -/
def conv_fwd_core_op_new (ins outs : List TensorDetails) (attrs : ConvAttrs) :
    Option ConvOp :=
  match ins with
  | [din, dweight] =>
    let indims := din.dims
    let weightdims := dweight.dims
    let ndims := indims.length
    match attrs.strides with
    | none => none
    | some strides =>
      let attrs1 :=
        match attrs.auto_pad with
        | none => attrs
        | some pad_type =>
          if pad_type = "VALID" then
            { attrs with pads_begin := some (List.replicate (ndims - 2) 0),
                         pads_end := some (List.replicate (ndims - 2) 0) }
          else if pad_type = "SAME_UPPER" ∨ pad_type = "SAME_LOWER" then
            let pads := infer_auto_pad indims weightdims strides (pad_type = "SAME_UPPER")
            { attrs with pads_begin := some pads.1, pads_end := some pads.2 }
          else attrs
      let padsOpt : Option (List Int × List Int) :=
        match attrs1.pads_begin with
        | some pb =>
          match attrs1.pads_end with
          | some pe => some (pb, pe)
          | none => none
        | none =>
          match attrs1.paddings with
          | some pad => some (pad, pad)
          | none => none
      match padsOpt with
      | none => none
      | some (pads_begin, pads_end) =>
        if pads_begin = pads_end then
          match infer_out_dims indims weightdims pads_begin pads_end strides with
          | none => none
          | some _expected =>
            if outs.isEmpty then
              if check_dtypes din.dtype dweight.dtype .undef then
                some ⟨ndims, attrs1, [⟨[], infer_out_dtype din.dtype dweight.dtype⟩]⟩
              else none
            else
              match outs with
              | [out0] =>
                if check_dtypes din.dtype dweight.dtype out0.dtype then
                  some ⟨ndims, attrs1, [out0]⟩
                else none
              | _ => none
        else none
  | _ => none

/-- Operation kinds distinguished by `annotate_fusion_break`'s dynamic
type checks; `other` stands for every other op class (including graph
input ops). -/
inductive SCOpKind where
  | conv_fwd
  | add
  | relu
  | quantize
  | dequantize
  | other
deriving DecidableEq

/-- An op of an `sc_graph_t`: kind, consumed value ids, produced value
ids, and the `break_post_fuse` attribute. -/
structure SCOp where
  kind : SCOpKind
  inputs : List Nat
  outputs : List Nat
  break_post_fuse : Bool
deriving DecidableEq

/-- An `sc_graph_t` restricted to what `annotate_fusion_break` consults:
the op list and the graph-level `quantize` attribute. -/
structure SCGraphQ where
  ops : List SCOp
  quantizeAttr : Bool
deriving DecidableEq

/-- The context flags consulted by the pass (`ctx->flags_.mixed_fusion_`). -/
structure SCContext where
  mixed_fusion : Bool
deriving DecidableEq

/-- Index of the producer op of value `v` (`producer_owner_`). -/
def scProducerIdx (g : SCGraphQ) (v : Nat) : Option Nat :=
  g.ops.findIdx? (fun o => o.outputs.contains v)

/-- The kind of the op at index `i`. -/
def opKindAt (g : SCGraphQ) (i : Nat) : Option SCOpKind :=
  (g.ops[i]?).map (fun o => o.kind)

/-- The `k`-th input value of the op at index `i`. -/
def opInputAt (g : SCGraphQ) (i k : Nat) : Option Nat :=
  (g.ops[i]?).bind (fun o => o.inputs[k]?)

/-- First branch of `annotate_fusion_break` (annotate_fuse_break.cpp lines
47-61), for one input value `v` of an Add op: if the chain
producer(v) = Dequantize, producer(Dequantize.in0) = Quantize,
producer(Quantize.in0) ∈ {Convolution, Add} holds, return the index of
the Quantize op to mark with `break_post_fuse`. -/
def quantChainMark (g : SCGraphQ) (v : Nat) : Option Nat :=
  (scProducerIdx g v).bind fun i1 =>
    if opKindAt g i1 = some .dequantize then
      (opInputAt g i1 0).bind fun v2 =>
        (scProducerIdx g v2).bind fun i2 =>
          if opKindAt g i2 = some .quantize then
            (opInputAt g i2 0).bind fun v3 =>
              (scProducerIdx g v3).bind fun i3 =>
                if opKindAt g i3 = some .conv_fwd ∨ opKindAt g i3 = some .add then some i2
                else none
          else none
    else none

/-- All quantize-op indices marked by the first branch while visiting an
Add op with the given inputs. -/
def branch1Marks (g : SCGraphQ) (inputs : List Nat) : List Nat :=
  inputs.filterMap (quantChainMark g)

/-- Second branch of `annotate_fusion_break` (annotate_fuse_break.cpp
lines 62-80), for a Quantize op with the given inputs: true iff
producer(in0) = Relu, producer(Relu.in0) = Add, and at least one of the
Add's two input producers is a Dequantize. -/
def branch2Cond (g : SCGraphQ) (inputs : List Nat) : Bool :=
  match (inputs[0]?).bind (scProducerIdx g) with
  | none => false
  | some i1 =>
    if opKindAt g i1 = some .relu then
      match (opInputAt g i1 0).bind (scProducerIdx g) with
      | none => false
      | some i2 =>
        if opKindAt g i2 = some .add then
          (match (opInputAt g i2 0).bind (scProducerIdx g) with
           | some i3 => opKindAt g i3 == some .dequantize
           | none => false) ||
          (match (opInputAt g i2 1).bind (scProducerIdx g) with
           | some i3 => opKindAt g i3 == some .dequantize
           | none => false)
        else false
    else false

/-- Set `break_post_fuse := true` on the op at index `i` (out-of-range
indices leave the graph unchanged). -/
def setBreakAt (g : SCGraphQ) (i : Nat) : SCGraphQ :=
  match g.ops[i]? with
  | some o => { g with ops := g.ops.set i { o with break_post_fuse := true } }
  | none => g

/-- The Add branch of one loop iteration of `annotate_fusion_break`
(annotate_fuse_break.cpp lines 47-61): when the op at `idx` is an Add,
mark every quantize op found through `quantChainMark` over its inputs. -/
def annotateStepAdd (acc : SCGraphQ) (idx : Nat) : SCGraphQ :=
  match acc.ops[idx]? with
  | some o => if o.kind = .add then (branch1Marks acc o.inputs).foldl setBreakAt acc else acc
  | none => acc

/-- The Quantize branch of one loop iteration (lines 62-80): when the op
at `idx` is a Quantize closing an Add-with-Dequantize-input → Relu chain,
mark the op itself. -/
def annotateStepQuant (acc : SCGraphQ) (idx : Nat) : SCGraphQ :=
  match acc.ops[idx]? with
  | some o =>
    if o.kind = .quantize ∧ branch2Cond acc o.inputs then setBreakAt acc idx else acc
  | none => acc

/-- One iteration of `annotate_fusion_break`'s loop, visiting the op at
index `idx`: the Add branch, then, when mixed fusion is enabled, the
Quantize branch. -/
def annotateStep (ctx : SCContext) (acc : SCGraphQ) (idx : Nat) : SCGraphQ :=
  if ctx.mixed_fusion then annotateStepQuant (annotateStepAdd acc idx) idx
  else annotateStepAdd acc idx

/-- `annotate_fusion_break` (annotate_fuse_break.cpp lines 43-82): if the
graph's quantize attribute is absent or false, return immediately;
otherwise visit every op in graph order, marking `break_post_fuse` per
the two chain patterns. -/
def annotate_fusion_break (g : SCGraphQ) (ctx : SCContext) : SCGraphQ :=
  if !g.quantizeAttr then g
  else (List.range g.ops.length).foldl (annotateStep ctx) g

/-- OR the given flag onto an op's `break_post_fuse` attribute. -/
def setBreakFlag (b : Bool) (o : SCOp) : SCOp :=
  { o with break_post_fuse := o.break_post_fuse || b }

/-- OR a mark predicate onto the break flags of a list of ops, the op at
position `i + j` of the overall list receiving mark `mk (i + j)`. -/
def applyMarksList (mk : Nat → Bool) : Nat → List SCOp → List SCOp
  | _, [] => []
  | i, o :: rest => setBreakFlag (mk i) o :: applyMarksList mk (i + 1) rest

/-- OR a mark predicate onto the break flags of a graph's ops. -/
def applyMarks (g : SCGraphQ) (mk : Nat → Bool) : SCGraphQ :=
  { g with ops := applyMarksList mk 0 g.ops }

/-- The marks contributed by the Add branch while visiting op `idx` on
the structural graph `g`. -/
def addMark (g : SCGraphQ) (idx i : Nat) : Bool :=
  match g.ops[idx]? with
  | some a => a.kind == .add && (branch1Marks g a.inputs).contains i
  | none => false

/-- The self-mark contributed by the Quantize branch while visiting op
`idx` on the structural graph `g`. -/
def quantMark (g : SCGraphQ) (idx i : Nat) : Bool :=
  (idx == i) &&
  (match g.ops[idx]? with
   | some o => o.kind == .quantize && branch2Cond g o.inputs
   | none => false)

/-- The marks contributed by visiting op `idx` on the structural graph
`g`: the Add branch's quantize-chain marks plus, under mixed fusion, the
Quantize branch's self-mark. -/
def stepMark (g : SCGraphQ) (ctx : SCContext) (idx i : Nat) : Bool :=
  addMark g idx i || (ctx.mixed_fusion && quantMark g idx i)

/-- The final mark predicate of the whole pass: op `i` is marked iff some
visited op contributes a mark for it. -/
def finalMark (g : SCGraphQ) (ctx : SCContext) (i : Nat) : Bool :=
  (List.range g.ops.length).any fun idx => stepMark g ctx idx i

/-- The total padding computed by `infer_auto_pad` for spatial dim `j`
(source: `calc_total_padding(i, k, o, s) = (o - 1) * s + k - i` with
o = i), with a length-1 stride broadcast to all spatial dims. -/
def same_total_pad (ind wd st : List Int) (j : Nat) : Int :=
  (ind.getD (j + 2) 0 - 1) * (if st.length = 1 then st.getD 0 0 else st.getD j 0)
    + wd.getD (j + 2) 0 - ind.getD (j + 2) 0

/-- A quantized test graph: Convolution → Quantize → Dequantize → Add,
with the graph-level quantize attribute set. -/
def scTestGraph : SCGraphQ :=
  ⟨[⟨.conv_fwd, [0], [1], false⟩,
    ⟨.quantize, [1], [2], false⟩,
    ⟨.dequantize, [2], [3], false⟩,
    ⟨.add, [3, 9], [5], false⟩], true⟩

end SC

/-! ## Theorems -/

namespace Fusion

theorem rankBefore_total (a b : RegPattern) : rankBefore a b ∨ rankBefore b a := by
  rcases lt_trichotomy a.priority b.priority with h | h | h
  · exact Or.inr (Or.inl h)
  · rcases Nat.le_total a.regIndex b.regIndex with h2 | h2
    · exact Or.inl (Or.inr ⟨h, h2⟩)
    · exact Or.inr (Or.inr ⟨h.symm, h2⟩)
  · exact Or.inl (Or.inl h)

theorem rankBefore_trans {a b c : RegPattern}
    (h1 : rankBefore a b) (h2 : rankBefore b c) : rankBefore a c := by
  rcases h1 with h1 | ⟨h1, h1i⟩ <;> rcases h2 with h2 | ⟨h2, h2i⟩
  · exact Or.inl (h2.trans h1)
  · exact Or.inl (by rw [← h2]; exact h1)
  · exact Or.inl (by rw [h1]; exact h2)
  · exact Or.inr ⟨h1.trans h2, h1i.trans h2i⟩

theorem mem_insertRanked {a p : RegPattern} {l : List RegPattern} :
    a ∈ insertRanked p l ↔ a = p ∨ a ∈ l := by
  induction l with
  | nil => simp [insertRanked]
  | cons q rest ih =>
    by_cases h : rankBefore p q
    · simp [insertRanked, h]
    · simp only [insertRanked, if_neg h, List.mem_cons, ih]
      tauto

theorem mem_sortRanked {a : RegPattern} {l : List RegPattern} :
    a ∈ sortRanked l ↔ a ∈ l := by
  induction l with
  | nil => simp [sortRanked]
  | cons p rest ih =>
    simp only [sortRanked, mem_insertRanked, List.mem_cons, ih]

theorem pairwise_insertRanked {p : RegPattern} {l : List RegPattern}
    (h : l.Pairwise rankBefore) : (insertRanked p l).Pairwise rankBefore := by
  induction l with
  | nil => simp [insertRanked]
  | cons q rest ih =>
    rcases List.pairwise_cons.mp h with ⟨hq, hrest⟩
    by_cases hpq : rankBefore p q
    · rw [insertRanked, if_pos hpq]
      refine List.pairwise_cons.mpr ⟨?_, h⟩
      intro b hb
      rcases List.mem_cons.mp hb with rfl | hb
      · exact hpq
      · exact rankBefore_trans hpq (hq b hb)
    · rw [insertRanked, if_neg hpq]
      refine List.pairwise_cons.mpr ⟨?_, ih hrest⟩
      intro b hb
      rcases mem_insertRanked.mp hb with rfl | hb
      · rcases rankBefore_total b q with hh | hh
        · exact absurd hh hpq
        · exact hh
      · exact hq b hb

theorem pairwise_sortRanked (l : List RegPattern) :
    (sortRanked l).Pairwise rankBefore := by
  induction l with
  | nil => simp [sortRanked]
  | cons p rest ih => exact pairwise_insertRanked ih

/-- C2: `patterns_for(target)` returns exactly the registered patterns
whose target restriction is unrestricted or equal to the target, ordered
by descending priority with ties broken by registration order; for the
registry of pool_fusion.cpp and the cpu target, the priority-10.0 cpu
pattern is ranked before the priority-9.9 unrestricted one and the gpu
pattern is never offered; and of two patterns both matching the same
anchor (registered in the opposite order), the priority-10.0 one is the
one committed. -/
theorem patterns_for_ranked_and_priority_commits :
    (∀ (regs : List RegPattern) (tgt : EngineKind) (p : RegPattern),
        p ∈ patterns_for regs tgt ↔ p ∈ regs ∧ applicable tgt p = true)
    ∧ (∀ (regs : List RegPattern) (tgt : EngineKind),
        (patterns_for regs tgt).Pairwise rankBefore)
    ∧ (patterns_for dnnlRegistry .cpu).map (fun p => p.name)
        = ["int8_pool_binary_fusion_cpu", "pool_post_ops_fusion"]
    ∧ (∀ p ∈ patterns_for dnnlRegistry .cpu, p.engineKind ≠ some .gpu)
    ∧ (runRegistry hostPoolOnly [rpLowPriority, rpHighPriority] .cpu).ops.map
        (fun o => o.kind) = [.fused .quantized_pooling_post_ops]
    ∧ (runRegistry hostDeqPoolAddQuant dnnlRegistry .cpu).ops.map (fun o => o.kind)
        = [.fused .quantized_pooling_post_ops] := by
  refine ⟨?_, ?_, ?_, ?_, ?_, ?_⟩
  · intro regs tgt p
    rw [patterns_for, mem_sortRanked, List.mem_filter]
  · intro regs tgt
    exact pairwise_sortRanked _
  · decide
  · decide
  · decide
  · decide

/-- C1: on the host graph Dequantize → MaxPool → Quantize(per-tensor),
running the registry's patterns for the cpu target commits exactly one
fused node tagged `quantized_pooling_post_ops`, whose single input is the
Dequantize's original input edge (100) and whose single output is the
Quantize's original output edge (103); the Dequantize, MaxPool and
Quantize nodes are no longer present afterward. -/
theorem int8_pool_cpu_end_to_end :
    runRegistry hostDeqPoolQuant dnnlRegistry .cpu
      = ⟨[⟨.fused .quantized_pooling_post_ops, .per_tensor, [], [100], [103],
          some .quantized_pooling⟩]⟩
    ∧ (runRegistry hostDeqPoolQuant dnnlRegistry .cpu).ops.length = 1
    ∧ (runRegistry hostDeqPoolQuant dnnlRegistry .cpu).ops.all
        (fun o => !(o.kind == .Dequantize) && !(o.kind == .MaxPool)
          && !(o.kind == .Quantize)) = true := by
  refine ⟨by decide, by decide, by decide⟩

end Fusion

namespace Fusion

/-- C3: for the pool-post-ops pattern (repetition of a binary elementwise
sub-template with min 1 and unbounded max), a pooling node followed by a
chain of 3 compatible binary ops matches with exactly 3 greedy repeats; a
chain of 0 such ops fails to match; the min-0 variant matches the 0-op
chain with 0 repeats; and in general a repetition whose greedy chain ends
below the declared minimum fails with the partial chain discarded, the
greedy chain never exceeding the cap. -/
theorem repetition_bounds :
    matchAt hostPoolBinChain3 poolPostOpsPattern 0 = some ([0, 1, 2, 3], 5)
    ∧ (repGreedy hostPoolBinChain3 [⟨binaryKinds, [], 0, []⟩]
        (capOf hostPoolBinChain3 none) 2).1.length = 3
    ∧ matchAt hostPoolOnly poolPostOpsPattern 0 = none
    ∧ matchAt hostPoolOnly poolPostOpsMin0 0 = some ([0], 2)
    ∧ (repGreedy hostPoolOnly [⟨binaryKinds, [], 0, []⟩]
        (capOf hostPoolOnly none) 2).1.length = 0
    ∧ (∀ (g : HGraph) (body : List PSingle) (mn : Nat) (mx : Option Nat) (v : Nat),
        (repGreedy g body (capOf g mx) v).1.length < mn →
          matchElemAt g (.repetition body mn mx) v = none)
    ∧ (∀ (g : HGraph) (body : List PSingle) (cap v : Nat),
        (repGreedy g body cap v).1.length ≤ cap) := by
  refine ⟨by decide, by decide, by decide, by decide, by decide, ?_, ?_⟩
  · intro g body mn mx v h
    have he : matchElemAt g (.repetition body mn mx) v
        = if (repGreedy g body (capOf g mx) v).1.length < mn then none
          else some ((repGreedy g body (capOf g mx) v).1.flatten,
            (repGreedy g body (capOf g mx) v).2) := rfl
    rw [he, if_pos h]
  · intro g body cap
    induction cap with
    | zero => intro v; simp [repGreedy]
    | succ n ih =>
      intro v
      rw [repGreedy]
      cases h : matchSingleChain g body v with
      | none => simp
      | some r =>
        simp only [List.length_cons]
        have := ih r.2
        omega

/-- C4: the matcher tries the alternatives of an alternation in declared
order and selects the first one that matches, failing only when no
alternative matches; in particular, with two alternatives A (Add) and B
(Add-or-Multiply) both structurally eligible on an Add consumer, A (index
0) is the one selected. -/
theorem alternation_declared_order :
    (∀ (g : HGraph) (A : List PSingle) (rest : List (List PSingle)) (v : Nat)
        (r : List Nat × Nat), matchSingleChain g A v = some r →
          altsFirst g (A :: rest) v = some (0, r))
    ∧ (∀ (g : HGraph) (A : List PSingle) (rest : List (List PSingle)) (v : Nat),
        matchSingleChain g A v = none →
          altsFirst g (A :: rest) v = (altsFirst g rest v).map (fun t => (t.1 + 1, t.2)))
    ∧ (∀ (g : HGraph) (alts : List (List PSingle)) (v : Nat),
        (∀ a ∈ alts, matchSingleChain g a v = none) → altsFirst g alts v = none)
    ∧ altsFirst hostPoolBinChain3 [[⟨[.Add], [], 0, []⟩], [⟨[.Add, .Multiply], [], 0, []⟩]] 2
        = some (0, [1], 3)
    ∧ matchSingleChain hostPoolBinChain3 [⟨[.Add, .Multiply], [], 0, []⟩] 2
        = some ([1], 3) := by
  refine ⟨?_, ?_, ?_, by decide, by decide⟩
  · intro g A rest v r h
    rw [altsFirst, h]
  · intro g A rest v h
    rw [altsFirst, h]
  · intro g alts v h
    induction alts with
    | nil => rfl
    | cons a rest ih =>
      rw [altsFirst, h a (List.mem_cons_self a rest),
        ih (fun b hb => h b (List.mem_cons_of_mem a hb))]
      rfl

/-- C5: if any decision predicate attached to a single pattern node
evaluates to false on the bound host op, the binding fails as a plain
no-match; in particular the int8 cpu pattern fails to match the
Dequantize → MaxPool → Quantize chain when the Quantize uses per-channel
granularity, while the per-tensor twin of the same structure matches. -/
theorem decision_predicate_gating :
    (∀ (g : HGraph) (s : PSingle) (i : Nat) (op : HOp), g.ops[i]? = some op →
        (∃ p ∈ s.preds, p op = false) → matchSingleOpAt g s i = none)
    ∧ matchAt hostPerChannel int8PoolCpuPattern 0 = none
    ∧ structMatch hostPerChannel int8PoolCpuPattern 0 = none
    ∧ matchAt hostDeqPoolQuant int8PoolCpuPattern 0 = some ([0, 1, 2], 103) := by
  refine ⟨?_, by decide, by decide, by decide⟩
  intro g s i op hop hex
  have hall : (s.preds.all fun p => p op) = false := by
    rcases hex with ⟨p, hp, hfalse⟩
    exact List.all_eq_false.mpr ⟨p, hp, by simp [hfalse]⟩
  rw [matchSingleOpAt, hop]
  simp [hall]

/-- C6: every committed match satisfies the boundary-safety invariant —
each output value of a matched op other than the exposed output has all
its consumers inside the match; a full structural match with an extra
external consumer on such an internal edge is invalidated as a no-match
(witnessed by the fan-out host graph, where the int8 cpu pattern matches
structurally but `matchAt` rejects it). -/
theorem boundary_safety_invariant :
    (∀ (g : HGraph) (pat : Pattern) (a : Nat) (m : List Nat × Nat),
        matchAt g pat a = some m → boundaryOk g m.1 m.2 = true)
    ∧ (∀ (g : HGraph) (matched : List Nat) (vout : Nat),
        boundaryOk g matched vout = true →
          ∀ i ∈ matched, ∀ op : HOp, g.ops[i]? = some op →
            ∀ v ∈ op.outputs, v ≠ vout → ∀ c ∈ consumersOf g v, c ∈ matched)
    ∧ structMatch hostFanOut int8PoolCpuPattern 0 = some ([0, 1, 2], 103)
    ∧ matchAt hostFanOut int8PoolCpuPattern 0 = none := by
  refine ⟨?_, ?_, by decide, by decide⟩
  · intro g pat a m h
    rw [matchAt] at h
    cases hs : structMatch g pat a with
    | none => rw [hs] at h; exact absurd h (by simp)
    | some r =>
      obtain ⟨os, v⟩ := r
      rw [hs] at h
      by_cases hb : boundaryOk g os v = true
      · simp only [hb, if_true] at h
        cases h
        exact hb
      · simp only [Bool.not_eq_true] at hb
        simp [hb] at h
  · intro g matched vout h i hi op hop v hv hne c hc
    have hi2 := List.all_eq_true.mp h i hi
    rw [hop] at hi2
    have hv2 := List.all_eq_true.mp hi2 v hv
    have hor := Bool.or_eq_true_iff.mp hv2
    rcases hor with heq | hall
    · exact absurd (by simpa using heq) hne
    · have := List.all_eq_true.mp hall c hc
      simpa using this

/-- C7: commit is atomic — a failing kernel factory makes the commit fail
with the host graph left untouched (no anchor commits, the driver pass
returns the graph unchanged), and a successful commit is exactly the full
replacement `rewriteGraph`; concretely, running the registry consisting
of the int8 cpu pattern with a failing factory on the matching host graph
leaves the graph exactly as it was. -/
theorem commit_atomicity :
    (∀ (g : HGraph) (rp : RegPattern) (a : Nat), rp.factory = none →
        tryPatternAt g rp a = none)
    ∧ (∀ (f : Nat) (g : HGraph) (rp : RegPattern), applyOnce g rp = none →
        runPattern f g rp = g)
    ∧ (∀ (f : Nat) (g : HGraph) (rp : RegPattern), rp.factory = none →
        runPattern f g rp = g)
    ∧ (∀ (g : HGraph) (rp : RegPattern) (a : Nat) (g2 : HGraph),
        tryPatternAt g rp a = some g2 →
          ∃ m k, matchAt g rp.pattern a = some m ∧ rp.factory = some k
            ∧ g2 = rewriteGraph g rp m k)
    ∧ runRegistry hostDeqPoolQuant [failingFactoryPattern] .cpu = hostDeqPoolQuant := by
  have h1 : ∀ (g : HGraph) (rp : RegPattern) (a : Nat), rp.factory = none →
      tryPatternAt g rp a = none := by
    intro g rp a h
    rw [tryPatternAt]
    cases hm : matchAt g rp.pattern a with
    | none => rfl
    | some m =>
      show commitMatch g rp m = none
      rw [commitMatch, h]
      rfl
  have h2 : ∀ (f : Nat) (g : HGraph) (rp : RegPattern), applyOnce g rp = none →
      runPattern f g rp = g := by
    intro f g rp h
    cases f with
    | zero => rfl
    | succ n => rw [runPattern, h]
  refine ⟨h1, h2, ?_, ?_, by decide⟩
  · intro f g rp h
    refine h2 f g rp ?_
    rw [applyOnce]
    exact List.findSome?_eq_none_iff.mpr (fun a _ => h1 g rp a h)
  · intro g rp a g2 h
    rw [tryPatternAt] at h
    cases hm : matchAt g rp.pattern a with
    | none => rw [hm] at h; exact absurd h (by simp)
    | some m =>
      rw [hm] at h
      change commitMatch g rp m = some g2 at h
      rw [commitMatch] at h
      rcases Option.map_eq_some'.mp h with ⟨k, hk, hg⟩
      exact ⟨m, k, rfl, hk, hg.symm⟩

end Fusion

namespace Fusion

theorem patterns_for_ranked_witness :
    (⟨"int8_pool_binary_fusion_cpu", 10, some .cpu, .quantized_pooling_post_ops,
      int8PoolCpuPattern, some .quantized_pooling, 1⟩ : RegPattern).engineKind
      ≠ some .gpu := by
  have hp : (⟨"int8_pool_binary_fusion_cpu", 10, some .cpu, .quantized_pooling_post_ops,
      int8PoolCpuPattern, some .quantized_pooling, 1⟩ : RegPattern) ∈ dnnlRegistry :=
    List.mem_cons_of_mem _ (List.mem_cons_self _ _)
  exact patterns_for_ranked_and_priority_commits.2.2.2.1 _
    ((patterns_for_ranked_and_priority_commits.1 dnnlRegistry .cpu _).mpr ⟨hp, rfl⟩)

theorem repetition_bounds_witness :
    matchElemAt hostPoolOnly (.repetition [⟨binaryKinds, [], 0, []⟩] 1 none) 2 = none
    ∧ (repGreedy hostPoolOnly [⟨binaryKinds, [], 0, []⟩] 1 2).1.length ≤ 1 :=
  ⟨repetition_bounds.2.2.2.2.2.1 hostPoolOnly [⟨binaryKinds, [], 0, []⟩] 1 none 2
      (by decide),
   repetition_bounds.2.2.2.2.2.2 hostPoolOnly [⟨binaryKinds, [], 0, []⟩] 1 2⟩

theorem alternation_declared_order_witness :
    altsFirst hostPoolBinChain3
        [[⟨[.Add], [], 0, []⟩], [⟨[.Add, .Multiply], [], 0, []⟩]] 2
      = some (0, [1], 3) :=
  alternation_declared_order.1 hostPoolBinChain3 [⟨[.Add], [], 0, []⟩]
    [[⟨[.Add, .Multiply], [], 0, []⟩]] 2 ([1], 3) (by decide)

theorem decision_predicate_gating_witness :
    matchSingleOpAt hostPerChannel
        ⟨[.Quantize], [check_qtype_equal_to_per_tensor], 0, []⟩ 2 = none :=
  decision_predicate_gating.1 hostPerChannel
    ⟨[.Quantize], [check_qtype_equal_to_per_tensor], 0, []⟩ 2
    ⟨.Quantize, .per_channel, [], [102], [103], none⟩ (by decide)
    ⟨check_qtype_equal_to_per_tensor, List.mem_cons_self _ _, by decide⟩

theorem boundary_safety_invariant_witness :
    boundaryOk hostDeqPoolQuant [0, 1, 2] 103 = true
    ∧ (2 : Nat) ∈ [0, 1, 2] :=
  ⟨boundary_safety_invariant.1 hostDeqPoolQuant int8PoolCpuPattern 0 ([0, 1, 2], 103)
      (by decide),
   boundary_safety_invariant.2.1 hostDeqPoolQuant [0, 1, 2] 103 (by decide) 1 (by decide)
     ⟨.MaxPool, .per_tensor, [], [101], [102], none⟩ (by decide) 102 (by decide)
     (by decide) 2 (by decide)⟩

theorem commit_atomicity_witness :
    tryPatternAt hostDeqPoolQuant failingFactoryPattern 0 = none
    ∧ runPattern 3 hostDeqPoolQuant failingFactoryPattern = hostDeqPoolQuant :=
  ⟨commit_atomicity.1 hostDeqPoolQuant failingFactoryPattern 0 rfl,
   commit_atomicity.2.2.1 3 hostDeqPoolQuant failingFactoryPattern rfl⟩

end Fusion

namespace SC

theorem getD_map_range (f : Nat → Int) (n i : Nat) (h : i < n) (d : Int) :
    ((List.range n).map f).getD i d = f i := by
  simp [List.getD_eq_getElem?_getD, List.getElem?_map, List.getElem?_range, h]

theorem getD_nonneg (l : List Int) (h0 : ∀ x ∈ l, 0 ≤ x) (j : Nat)
    (hj : j < l.length) : 0 ≤ l.getD j 0 := by
  have hm : l.getD j 0 ∈ l := by
    rw [List.getD_eq_getElem l 0 hj]
    exact List.getElem_mem hj
  exact h0 _ hm

theorem bcast_getD (l : List Int) (n j : Nat) (hj : j < n)
    (hl : l.length = 1 ∨ l.length = n) (hn : 2 ≤ n) :
    (if l.length > 1 then l else List.replicate n (l.getD 0 0)).getD j 0
      = (if l.length = 1 then l.getD 0 0 else l.getD j 0) := by
  rcases hl with h | h
  · rw [if_neg (by omega), if_pos h]
    simp [List.getD_eq_getElem?_getD, List.getElem?_replicate, hj]
  · rw [if_pos (by omega), if_neg (by omega)]

theorem is_dyn_bcastval_false (l : List Int) (n j : Nat) (hj : j < n)
    (hl : l.length = 1 ∨ l.length = n) (hn : 2 ≤ n) (h0 : ∀ x ∈ l, 0 ≤ x) :
    is_dynamic_dim (if l.length = 1 then l.getD 0 0 else l.getD j 0) = false := by
  rcases hl with h | h
  · rw [if_pos h]
    have := getD_nonneg l h0 0 (by omega)
    simp only [is_dynamic_dim, decide_eq_false_iff_not, not_lt]
    exact this
  · rw [if_neg (by omega)]
    have := getD_nonneg l h0 j (by omega)
    simp only [is_dynamic_dim, decide_eq_false_iff_not, not_lt]
    exact this

theorem is_dyn_getD_false (l : List Int) (j : Nat) (hj : j < l.length)
    (h0 : ∀ x ∈ l, 0 ≤ x) : is_dynamic_dim (l.getD j 0) = false := by
  have := getD_nonneg l h0 j hj
  simp only [is_dynamic_dim, decide_eq_false_iff_not, not_lt]
  exact this

/-- C8: for every static 4D or 5D input with weight of equal rank and
valid pads/stride lengths, `infer_out_dims` succeeds with out[0] equal to
the input's batch dim, out[1] equal to the weight's dim 0 (output
channels), and every spatial dim satisfying
out[i] = (in[i] + pads_begin[i-2] + pads_end[i-2] - weight[i]) / stride[i-2] + 1
with C truncated integer division, a length-1 pads/stride sequence being
broadcast to all spatial dims. -/
theorem conv_infer_out_dims_formula (ind wd pb pe st : List Int)
    (hlen : ind.length = 4 ∨ ind.length = 5)
    (hw : wd.length = ind.length)
    (hpb : pb.length = 1 ∨ pb.length = ind.length - 2)
    (hpe : pe.length = 1 ∨ pe.length = ind.length - 2)
    (hst : st.length = 1 ∨ st.length = ind.length - 2)
    (hind : ∀ x ∈ ind, 0 ≤ x) (hwd : ∀ x ∈ wd, 0 ≤ x)
    (hpb0 : ∀ x ∈ pb, 0 ≤ x) (hpe0 : ∀ x ∈ pe, 0 ≤ x)
    (hst0 : ∀ x ∈ st, 0 ≤ x) :
    ∃ out, infer_out_dims ind wd pb pe st = some out
      ∧ out.length = ind.length
      ∧ out.getD 0 0 = ind.getD 0 0
      ∧ out.getD 1 0 = wd.getD 0 0
      ∧ ∀ i, 2 ≤ i → i < ind.length →
          out.getD i 0 = Int.tdiv (ind.getD i 0
              + (if pb.length = 1 then pb.getD 0 0 else pb.getD (i - 2) 0)
              + (if pe.length = 1 then pe.getD 0 0 else pe.getD (i - 2) 0)
              - wd.getD i 0)
            (if st.length = 1 then st.getD 0 0 else st.getD (i - 2) 0) + 1 := by
  have hcond : (ind.length = 4 ∨ ind.length = 5)
      ∧ ((wd.length = 4 ∨ wd.length = 5) ∧ wd.length = ind.length)
      ∧ (if ind.length = 5 then pb.length = 1 ∨ pb.length = 3
         else pb.length = 1 ∨ pb.length = 2)
      ∧ (if ind.length = 5 then pe.length = 1 ∨ pe.length = 3
         else pe.length = 1 ∨ pe.length = 2)
      ∧ (if ind.length = 5 then st.length = 1 ∨ st.length = 3
         else st.length = 1 ∨ st.length = 2) := by
    refine ⟨hlen, ⟨by omega, hw⟩, ?_, ?_, ?_⟩
    · rcases hlen with h | h
      · rw [if_neg (by omega)]; omega
      · rw [if_pos h]; omega
    · rcases hlen with h | h
      · rw [if_neg (by omega)]; omega
      · rw [if_pos h]; omega
    · rcases hlen with h | h
      · rw [if_neg (by omega)]; omega
      · rw [if_pos h]; omega
  rw [infer_out_dims, if_pos hcond]
  refine ⟨_, rfl, by simp, ?_, ?_, ?_⟩
  · rw [getD_map_range _ _ 0 (by omega)]; simp
  · rw [getD_map_range _ _ 1 (by omega)]; simp
  · intro i h2 hi
    rw [getD_map_range _ _ i hi]
    have hn2 : 2 ≤ ind.length - 2 := by omega
    have hj : i - 2 < ind.length - 2 := by omega
    simp only [if_neg (by omega : ¬ i = 0), if_neg (by omega : ¬ i = 1)]
    rw [bcast_getD pb _ _ hj hpb hn2, bcast_getD pe _ _ hj hpe hn2,
      bcast_getD st _ _ hj hst hn2]
    rw [is_dyn_getD_false ind i hi hind, is_dyn_getD_false wd i (by omega) hwd,
      is_dyn_bcastval_false pb _ _ hj hpb hn2 hpb0,
      is_dyn_bcastval_false pe _ _ hj hpe hn2 hpe0,
      is_dyn_bcastval_false st _ _ hj hst hn2 hst0]
    simp

/-- Witness for the C8 theorem at a concrete static 4D input. -/
theorem conv_infer_out_dims_formula_witness :
    ∃ out, infer_out_dims [1, 3, 5, 5] [2, 3, 3, 3] [1] [1] [1] = some out
      ∧ out.length = ([1, 3, 5, 5] : List Int).length
      ∧ out.getD 0 0 = ([1, 3, 5, 5] : List Int).getD 0 0
      ∧ out.getD 1 0 = ([2, 3, 3, 3] : List Int).getD 0 0
      ∧ ∀ i, 2 ≤ i → i < ([1, 3, 5, 5] : List Int).length →
          out.getD i 0 = Int.tdiv (([1, 3, 5, 5] : List Int).getD i 0
              + (if ([1] : List Int).length = 1 then ([1] : List Int).getD 0 0
                 else ([1] : List Int).getD (i - 2) 0)
              + (if ([1] : List Int).length = 1 then ([1] : List Int).getD 0 0
                 else ([1] : List Int).getD (i - 2) 0)
              - ([2, 3, 3, 3] : List Int).getD i 0)
            (if ([1] : List Int).length = 1 then ([1] : List Int).getD 0 0
             else ([1] : List Int).getD (i - 2) 0) + 1 :=
  conv_infer_out_dims_formula [1, 3, 5, 5] [2, 3, 3, 3] [1] [1] [1]
    (by decide) (by decide) (by decide) (by decide) (by decide)
    (by decide) (by decide) (by decide) (by decide) (by decide)

end SC

namespace SC

theorem infer_auto_pad_getD (ind wd st : List Int) (up : Bool) (j : Nat)
    (hlen : ind.length = 4 ∨ ind.length = 5)
    (hw : wd.length = ind.length)
    (hst : st.length = 1 ∨ st.length = ind.length - 2)
    (hind : ∀ x ∈ ind, 0 ≤ x) (hwd : ∀ x ∈ wd, 0 ≤ x) (hst0 : ∀ x ∈ st, 0 ≤ x)
    (hj : j < ind.length - 2) :
    (infer_auto_pad ind wd st up).1.getD j 0
      = (if same_total_pad ind wd st j % 2 = 0 then Int.tdiv (same_total_pad ind wd st j) 2
         else if up then Int.tdiv (same_total_pad ind wd st j) 2
         else Int.tdiv (same_total_pad ind wd st j) 2 + 1)
    ∧ (infer_auto_pad ind wd st up).2.getD j 0
      = (if same_total_pad ind wd st j % 2 = 0 then Int.tdiv (same_total_pad ind wd st j) 2
         else if up then Int.tdiv (same_total_pad ind wd st j) 2 + 1
         else Int.tdiv (same_total_pad ind wd st j) 2) := by
  have hn2 : 2 ≤ ind.length - 2 := by omega
  have hsb := bcast_getD st (ind.length - 2) j hj hst hn2
  have hd1 := is_dyn_getD_false ind (j + 2) (by omega) hind
  have hd2 := is_dyn_getD_false wd (j + 2) (by omega) hwd
  have hd3 := is_dyn_bcastval_false st (ind.length - 2) j hj hst hn2 hst0
  rw [infer_auto_pad]
  simp only [List.map_map]
  constructor
  · rw [getD_map_range _ _ j hj]
    simp only [Function.comp]
    rw [hsb, hd1, hd2, hd3]
    simp only [Bool.or_self, Bool.false_or, Bool.or_false, Bool.false_eq_true, if_false]
    rw [same_total_pad]
    by_cases ht : ((ind.getD (j + 2) 0 - 1)
        * (if st.length = 1 then st.getD 0 0 else st.getD j 0)
        + wd.getD (j + 2) 0 - ind.getD (j + 2) 0) % 2 = 0
    · rw [if_pos ht, if_pos ht]
    · rw [if_neg ht, if_neg ht]
  · rw [getD_map_range _ _ j hj]
    simp only [Function.comp]
    rw [hsb, hd1, hd2, hd3]
    simp only [Bool.or_self, Bool.false_or, Bool.or_false, Bool.false_eq_true, if_false]
    rw [same_total_pad]
    by_cases ht : ((ind.getD (j + 2) 0 - 1)
        * (if st.length = 1 then st.getD 0 0 else st.getD j 0)
        + wd.getD (j + 2) 0 - ind.getD (j + 2) 0) % 2 = 0
    · rw [if_pos ht, if_pos ht]
    · rw [if_neg ht, if_neg ht]

end SC

namespace SC

/-- C9: with auto_pad SAME_UPPER or SAME_LOWER and static shapes, when
the total padding (input-1)*stride + kernel - input of a spatial dim is
odd, `infer_auto_pad` assigns pads_begin and pads_end differing by one
(the extra unit on pads_end for SAME_UPPER and on pads_begin for
SAME_LOWER), and the constructor's symmetric-padding assertion
`pads_begin == pads_end` then fails, so construction succeeds only when
every static spatial total padding is even. -/
theorem conv_same_pad_odd_total_fails (din dweight : TensorDetails)
    (outs : List TensorDetails) (st : List Int) (ap : String)
    (pbA peA pdA : Option (List Int))
    (hlen : din.dims.length = 4 ∨ din.dims.length = 5)
    (hw : dweight.dims.length = din.dims.length)
    (hst : st.length = 1 ∨ st.length = din.dims.length - 2)
    (hind : ∀ x ∈ din.dims, 0 ≤ x) (hwd : ∀ x ∈ dweight.dims, 0 ≤ x)
    (hst0 : ∀ x ∈ st, 0 ≤ x)
    (hap : ap = "SAME_UPPER" ∨ ap = "SAME_LOWER") :
    (∀ j, j < din.dims.length - 2 →
      same_total_pad din.dims dweight.dims st j % 2 ≠ 0 →
      (infer_auto_pad din.dims dweight.dims st true).2.getD j 0
          = (infer_auto_pad din.dims dweight.dims st true).1.getD j 0 + 1
        ∧ (infer_auto_pad din.dims dweight.dims st false).1.getD j 0
          = (infer_auto_pad din.dims dweight.dims st false).2.getD j 0 + 1)
    ∧ ((∃ j, j < din.dims.length - 2
          ∧ same_total_pad din.dims dweight.dims st j % 2 ≠ 0) →
      conv_fwd_core_op_new [din, dweight] outs ⟨some st, some ap, pbA, peA, pdA⟩
        = none) := by
  constructor
  · intro j hj hodd
    obtain ⟨h1t, h2t⟩ :=
      infer_auto_pad_getD din.dims dweight.dims st true j hlen hw hst hind hwd hst0 hj
    obtain ⟨h1f, h2f⟩ :=
      infer_auto_pad_getD din.dims dweight.dims st false j hlen hw hst hind hwd hst0 hj
    rw [if_neg hodd] at h1t h2t h1f h2f
    simp at h1t h2t h1f h2f
    constructor
    · simp only [List.getD_eq_getElem?_getD]
      rw [h2t, h1t]
    · simp only [List.getD_eq_getElem?_getD]
      rw [h1f, h2f]
  · rintro ⟨j, hj, hodd⟩
    rcases hap with rfl | rfl
    · obtain ⟨h1t, h2t⟩ :=
        infer_auto_pad_getD din.dims dweight.dims st true j hlen hw hst hind hwd hst0 hj
      rw [if_neg hodd] at h1t h2t
      simp at h1t h2t
      have hne : ¬ (infer_auto_pad din.dims dweight.dims st true).1
          = (infer_auto_pad din.dims dweight.dims st true).2 := by
        intro heq
        have hh := congrArg (fun l => l.getD j 0) heq
        simp only [List.getD_eq_getElem?_getD] at hh
        rw [h1t, h2t] at hh
        omega
      simp only [conv_fwd_core_op_new, true_or, if_true, decide_True]
      rw [if_neg (show ¬ ("SAME_UPPER" = "VALID") by decide)]
      simp only []
      rw [if_neg hne]
    · obtain ⟨h1f, h2f⟩ :=
        infer_auto_pad_getD din.dims dweight.dims st false j hlen hw hst hind hwd hst0 hj
      rw [if_neg hodd] at h1f h2f
      simp at h1f h2f
      have hne : ¬ (infer_auto_pad din.dims dweight.dims st false).1
          = (infer_auto_pad din.dims dweight.dims st false).2 := by
        intro heq
        have hh := congrArg (fun l => l.getD j 0) heq
        simp only [List.getD_eq_getElem?_getD] at hh
        rw [h1f, h2f] at hh
        omega
      simp only [conv_fwd_core_op_new, or_true, if_true]
      rw [if_neg (show ¬ ("SAME_LOWER" = "VALID") by decide)]
      rw [show decide ("SAME_LOWER" = "SAME_UPPER") = false from by decide]
      simp only []
      rw [if_neg hne]

end SC

namespace SC

/-- Witness for the C9 theorem: a 3x3 input with a 2x2 kernel and stride
1 has odd total padding 1 on both spatial dims. -/
theorem conv_same_pad_odd_total_fails_witness :
    conv_fwd_core_op_new [⟨[1, 1, 3, 3], .f32⟩, ⟨[1, 1, 2, 2], .f32⟩] []
        ⟨some [1], some "SAME_UPPER", none, none, none⟩ = none
    ∧ (infer_auto_pad [1, 1, 3, 3] [1, 1, 2, 2] [1] true).2.getD 0 0
        = (infer_auto_pad [1, 1, 3, 3] [1, 1, 2, 2] [1] true).1.getD 0 0 + 1 :=
  have h := conv_same_pad_odd_total_fails ⟨[1, 1, 3, 3], .f32⟩ ⟨[1, 1, 2, 2], .f32⟩ []
    [1] "SAME_UPPER" none none none (by decide) (by decide) (by decide) (by decide)
    (by decide) (by decide) (by decide)
  ⟨h.2 ⟨0, by decide, by decide⟩, (h.1 0 (by decide) (by decide)).1⟩

end SC

namespace SC

theorem setBreakFlag_false (o : SCOp) : setBreakFlag false o = o := by
  cases o
  simp [setBreakFlag]

theorem setBreakFlag_kind (b : Bool) (o : SCOp) : (setBreakFlag b o).kind = o.kind := rfl

theorem applyMarksList_length (mk : Nat → Bool) (i : Nat) (l : List SCOp) :
    (applyMarksList mk i l).length = l.length := by
  induction l generalizing i with
  | nil => rfl
  | cons o rest ih => simp [applyMarksList, ih]

theorem applyMarksList_getElem? (mk : Nat → Bool) (i : Nat) (l : List SCOp) (j : Nat) :
    (applyMarksList mk i l)[j]? = (l[j]?).map (setBreakFlag (mk (i + j))) := by
  induction l generalizing i j with
  | nil => simp [applyMarksList]
  | cons o rest ih =>
    cases j with
    | zero => simp [applyMarksList]
    | succ m =>
      simp only [applyMarksList, List.getElem?_cons_succ, ih (i + 1) m]
      have h : i + 1 + m = i + (m + 1) := by omega
      rw [h]

theorem applyMarks_ops_getElem? (g : SCGraphQ) (mk : Nat → Bool) (j : Nat) :
    (applyMarks g mk).ops[j]? = (g.ops[j]?).map (setBreakFlag (mk j)) := by
  have := applyMarksList_getElem? mk 0 g.ops j
  simpa [applyMarks] using this

theorem applyMarks_false (g : SCGraphQ) : applyMarks g (fun _ => false) = g := by
  cases g with
  | mk ops q =>
    simp only [applyMarks]
    congr 1
    induction ops with
    | nil => rfl
    | cons o rest ih =>
      simp only [applyMarksList, setBreakFlag_false]
      exact congrArg (o :: ·) (by
        have : ∀ (i : Nat) (l : List SCOp), applyMarksList (fun _ => false) i l = l := by
          intro i l
          induction l generalizing i with
          | nil => rfl
          | cons p r ihr => simp [applyMarksList, setBreakFlag_false, ihr]
        exact this 1 rest)

theorem findIdx?_applyMarksList (p : SCOp → Bool)
    (hp : ∀ (b : Bool) (o : SCOp), p (setBreakFlag b o) = p o)
    (mk : Nat → Bool) (i : Nat) (l : List SCOp) :
    (applyMarksList mk i l).findIdx? p = l.findIdx? p := by
  induction l generalizing i with
  | nil => rfl
  | cons o rest ih =>
    simp only [applyMarksList, List.findIdx?_cons, hp]
    cases p o with
    | true => rfl
    | false => simp [ih (i + 1)]

theorem scProducerIdx_applyMarks (g : SCGraphQ) (mk : Nat → Bool) (v : Nat) :
    scProducerIdx (applyMarks g mk) v = scProducerIdx g v := by
  unfold scProducerIdx
  exact findIdx?_applyMarksList (fun o => o.outputs.contains v) (fun b o => rfl) mk 0 g.ops

theorem opKindAt_applyMarks (g : SCGraphQ) (mk : Nat → Bool) (i : Nat) :
    opKindAt (applyMarks g mk) i = opKindAt g i := by
  unfold opKindAt
  rw [applyMarks_ops_getElem?, Option.map_map]
  rfl

theorem opInputAt_applyMarks (g : SCGraphQ) (mk : Nat → Bool) (i k : Nat) :
    opInputAt (applyMarks g mk) i k = opInputAt g i k := by
  unfold opInputAt
  rw [applyMarks_ops_getElem?]
  cases g.ops[i]? with
  | none => rfl
  | some o => rfl

end SC

namespace SC

theorem quantChainMark_applyMarks (g : SCGraphQ) (mk : Nat → Bool) (v : Nat) :
    quantChainMark (applyMarks g mk) v = quantChainMark g v := by
  unfold quantChainMark
  simp only [scProducerIdx_applyMarks, opKindAt_applyMarks, opInputAt_applyMarks]

theorem branch1Marks_applyMarks (g : SCGraphQ) (mk : Nat → Bool) (ins : List Nat) :
    branch1Marks (applyMarks g mk) ins = branch1Marks g ins := by
  unfold branch1Marks
  congr 1
  funext v
  exact quantChainMark_applyMarks g mk v

theorem branch2Cond_applyMarks (g : SCGraphQ) (mk : Nat → Bool) (ins : List Nat) :
    branch2Cond (applyMarks g mk) ins = branch2Cond g ins := by
  unfold branch2Cond
  simp only [scProducerIdx_applyMarks, opKindAt_applyMarks, opInputAt_applyMarks]

theorem applyMarksList_congr (mk1 mk2 : Nat → Bool) (i : Nat) (l : List SCOp)
    (h : ∀ j, i ≤ j → j < i + l.length → mk1 j = mk2 j) :
    applyMarksList mk1 i l = applyMarksList mk2 i l := by
  induction l generalizing i with
  | nil => rfl
  | cons p rest ih =>
    simp only [applyMarksList]
    rw [h i (Nat.le_refl i) (by simp), ih (i + 1) (fun j hj1 hj2 => h j (by omega)
      (by simp at hj2 ⊢; omega))]

theorem applyMarksList_set (mk : Nat → Bool) (i : Nat) (l : List SCOp) (t : Nat)
    (o : SCOp) (h : l[t]? = some o) :
    (applyMarksList mk i l).set t
        { setBreakFlag (mk (i + t)) o with break_post_fuse := true }
      = applyMarksList (fun j => mk j || j == i + t) i l := by
  induction l generalizing i t with
  | nil => simp at h
  | cons p rest ih =>
    cases t with
    | zero =>
      simp only [List.getElem?_cons_zero, Option.some_inj] at h
      subst h
      simp only [applyMarksList, List.set_cons_zero]
      congr 1
      · simp [setBreakFlag]
      · apply applyMarksList_congr
        intro j hj1 hj2
        have : (j == i + 0) = false := beq_eq_false_iff_ne.mpr (by omega)
        rw [this, Bool.or_false]
    | succ m =>
      simp only [List.getElem?_cons_succ] at h
      simp only [applyMarksList, List.set_cons_succ]
      congr 1
      · have : (i == i + (m + 1)) = false := beq_eq_false_iff_ne.mpr (by omega)
        rw [this, Bool.or_false]
      · have harith : i + (m + 1) = i + 1 + m := by omega
        rw [harith]
        exact ih (i + 1) m h

theorem setBreakAt_applyMarks (g : SCGraphQ) (mk : Nat → Bool) (t : Nat) :
    setBreakAt (applyMarks g mk) t = applyMarks g (fun i => mk i || i == t) := by
  unfold setBreakAt
  rw [show (applyMarks g mk).ops[t]? = (g.ops[t]?).map (setBreakFlag (mk t)) from
    applyMarks_ops_getElem? g mk t]
  cases h : g.ops[t]? with
  | none =>
    simp only [Option.map_none']
    unfold applyMarks
    congr 1
    apply applyMarksList_congr
    intro j hj1 hj2
    have hlen : g.ops.length ≤ t := List.getElem?_eq_none_iff.mp h
    have : (j == t) = false := beq_eq_false_iff_ne.mpr (by omega)
    rw [this, Bool.or_false]
  | some o =>
    simp only [Option.map_some']
    unfold applyMarks
    simp only []
    congr 1
    have := applyMarksList_set mk 0 g.ops t o h
    simpa using this

end SC

namespace SC

theorem applyMarks_congr (g : SCGraphQ) (mk1 mk2 : Nat → Bool)
    (h : ∀ i, mk1 i = mk2 i) : applyMarks g mk1 = applyMarks g mk2 := by
  have : mk1 = mk2 := funext h
  rw [this]

theorem foldl_setBreakAt_applyMarks (g : SCGraphQ) (ms : List Nat) :
    ∀ mk : Nat → Bool, ms.foldl setBreakAt (applyMarks g mk)
      = applyMarks g (fun i => mk i || ms.contains i) := by
  induction ms with
  | nil =>
    intro mk
    simp only [List.foldl_nil]
    apply applyMarks_congr
    intro i
    simp
  | cons m rest ih =>
    intro mk
    simp only [List.foldl_cons]
    rw [setBreakAt_applyMarks, ih]
    apply applyMarks_congr
    intro i
    rw [List.contains_cons, Bool.or_assoc]

theorem annotateStepAdd_applyMarks (g : SCGraphQ) (mk : Nat → Bool) (idx : Nat) :
    annotateStepAdd (applyMarks g mk) idx
      = applyMarks g (fun i => mk i || addMark g idx i) := by
  unfold annotateStepAdd
  rw [applyMarks_ops_getElem? g mk idx]
  cases hg : g.ops[idx]? with
  | none =>
    show applyMarks g mk = applyMarks g (fun i => mk i || addMark g idx i)
    apply applyMarks_congr
    intro i
    simp only [addMark]
    rw [hg]
    simp
  | some a =>
    show (if a.kind = .add
        then (branch1Marks (applyMarks g mk) a.inputs).foldl setBreakAt (applyMarks g mk)
        else applyMarks g mk)
      = applyMarks g (fun i => mk i || addMark g idx i)
    rw [branch1Marks_applyMarks]
    by_cases ha : a.kind = .add
    · rw [if_pos ha, foldl_setBreakAt_applyMarks]
      apply applyMarks_congr
      intro i
      simp only [addMark]
      rw [hg]
      have hb : (a.kind == SCOpKind.add) = true := by simp [ha]
      show (mk i || (branch1Marks g a.inputs).contains i)
        = (mk i || (a.kind == SCOpKind.add && (branch1Marks g a.inputs).contains i))
      rw [hb, Bool.true_and]
    · rw [if_neg ha]
      apply applyMarks_congr
      intro i
      simp only [addMark]
      rw [hg]
      have hb : (a.kind == SCOpKind.add) = false := by simp [ha]
      show mk i = (mk i || (a.kind == SCOpKind.add && (branch1Marks g a.inputs).contains i))
      rw [hb, Bool.false_and, Bool.or_false]

theorem annotateStepQuant_applyMarks (g : SCGraphQ) (mk : Nat → Bool) (idx : Nat) :
    annotateStepQuant (applyMarks g mk) idx
      = applyMarks g (fun i => mk i || quantMark g idx i) := by
  unfold annotateStepQuant
  rw [applyMarks_ops_getElem? g mk idx]
  cases hg : g.ops[idx]? with
  | none =>
    show applyMarks g mk = applyMarks g (fun i => mk i || quantMark g idx i)
    apply applyMarks_congr
    intro i
    simp only [quantMark]
    rw [hg]
    simp
  | some a =>
    show (if a.kind = .quantize ∧ branch2Cond (applyMarks g mk) a.inputs
        then setBreakAt (applyMarks g mk) idx
        else applyMarks g mk)
      = applyMarks g (fun i => mk i || quantMark g idx i)
    rw [branch2Cond_applyMarks]
    by_cases hq : a.kind = .quantize ∧ branch2Cond g a.inputs = true
    · rw [if_pos hq, setBreakAt_applyMarks]
      apply applyMarks_congr
      intro i
      simp only [quantMark]
      rw [hg]
      have h1 : (a.kind == SCOpKind.quantize) = true := by simp [hq.1]
      show (mk i || (i == idx))
        = (mk i || ((idx == i) && (a.kind == SCOpKind.quantize && branch2Cond g a.inputs)))
      rw [h1, hq.2, Bool.true_and, Bool.and_true]
      have hbeq : (i == idx) = (idx == i) := by
        by_cases hii : i = idx
        · subst hii; rfl
        · rw [beq_eq_false_iff_ne.mpr hii, beq_eq_false_iff_ne.mpr (Ne.symm hii)]
      rw [hbeq]
    · rw [if_neg hq]
      apply applyMarks_congr
      intro i
      simp only [quantMark]
      rw [hg]
      have h2 : (a.kind == SCOpKind.quantize && branch2Cond g a.inputs) = false := by
        rcases not_and_or.mp hq with h | h
        · have hh : (a.kind == SCOpKind.quantize) = false := by simp [h]
          rw [hh, Bool.false_and]
        · have hh : branch2Cond g a.inputs = false := by
            cases hbb : branch2Cond g a.inputs
            · rfl
            · exact absurd hbb h
          rw [hh, Bool.and_false]
      show mk i = (mk i || ((idx == i) && (a.kind == SCOpKind.quantize && branch2Cond g a.inputs)))
      rw [h2, Bool.and_false, Bool.or_false]

theorem annotateStep_applyMarks (g : SCGraphQ) (ctx : SCContext) (mk : Nat → Bool)
    (idx : Nat) :
    annotateStep ctx (applyMarks g mk) idx
      = applyMarks g (fun i => mk i || stepMark g ctx idx i) := by
  unfold annotateStep
  cases hm : ctx.mixed_fusion with
  | false =>
    simp only [Bool.false_eq_true, if_false]
    rw [annotateStepAdd_applyMarks]
    apply applyMarks_congr
    intro i
    simp only [stepMark, hm, Bool.false_and, Bool.or_false]
  | true =>
    simp only [if_true]
    rw [annotateStepAdd_applyMarks, annotateStepQuant_applyMarks]
    apply applyMarks_congr
    intro i
    simp only [stepMark, hm, Bool.true_and, Bool.or_assoc]

end SC

namespace SC

theorem foldl_annotateStep_range (g : SCGraphQ) (ctx : SCContext) (n : Nat) :
    (List.range n).foldl (annotateStep ctx) g
      = applyMarks g (fun i => (List.range n).any fun idx => stepMark g ctx idx i) := by
  induction n with
  | zero =>
    simp only [List.range_zero, List.foldl_nil, List.any_nil]
    exact (applyMarks_false g).symm
  | succ m ih =>
    rw [List.range_succ, List.foldl_append, List.foldl_cons, List.foldl_nil, ih,
      annotateStep_applyMarks]
    apply applyMarks_congr
    intro i
    rw [List.any_append, List.any_cons, List.any_nil, Bool.or_false]

theorem annotate_eq_applyMarks (g : SCGraphQ) (ctx : SCContext)
    (hq : g.quantizeAttr = true) :
    annotate_fusion_break g ctx = applyMarks g (finalMark g ctx) := by
  unfold annotate_fusion_break
  rw [hq]
  simp only [Bool.not_true, Bool.false_eq_true, if_false]
  rw [foldl_annotateStep_range]
  rfl

theorem quantChainMark_kind (g : SCGraphQ) (v i : Nat)
    (h : quantChainMark g v = some i) : opKindAt g i = some .quantize := by
  unfold quantChainMark at h
  rw [Option.bind_eq_some] at h
  obtain ⟨i1, hp1, h⟩ := h
  by_cases k1 : opKindAt g i1 = some SCOpKind.dequantize
  · rw [if_pos k1, Option.bind_eq_some] at h
    obtain ⟨v2, hv2, h⟩ := h
    rw [Option.bind_eq_some] at h
    obtain ⟨i2, hp2, h⟩ := h
    by_cases k2 : opKindAt g i2 = some SCOpKind.quantize
    · rw [if_pos k2, Option.bind_eq_some] at h
      obtain ⟨v3, hv3, h⟩ := h
      rw [Option.bind_eq_some] at h
      obtain ⟨i3, hp3, h⟩ := h
      by_cases k3 : opKindAt g i3 = some SCOpKind.conv_fwd ∨ opKindAt g i3 = some SCOpKind.add
      · rw [if_pos k3, Option.some_inj] at h
        subst h
        exact k2
      · rw [if_neg k3] at h
        exact absurd h (by simp)
    · rw [if_neg k2] at h
      exact absurd h (by simp)
  · rw [if_neg k1] at h
    exact absurd h (by simp)

theorem stepMark_quantize (g : SCGraphQ) (ctx : SCContext) (idx i : Nat)
    (h : stepMark g ctx idx i = true) : opKindAt g i = some .quantize := by
  unfold stepMark at h
  rcases Bool.or_eq_true_iff.mp h with h | h
  · unfold addMark at h
    cases hg : g.ops[idx]? with
    | none => rw [hg] at h; exact absurd h (by simp)
    | some a =>
      rw [hg] at h
      have hc := (Bool.and_eq_true_iff.mp h).2
      have hmem : i ∈ branch1Marks g a.inputs := by simpa using hc
      rw [branch1Marks] at hmem
      obtain ⟨v, hv, hqc⟩ := List.mem_filterMap.mp hmem
      exact quantChainMark_kind g v i hqc
  · have h2 := (Bool.and_eq_true_iff.mp h).2
    unfold quantMark at h2
    have h3 := (Bool.and_eq_true_iff.mp h2).2
    have h4 := (Bool.and_eq_true_iff.mp h2).1
    cases hg : g.ops[idx]? with
    | none => rw [hg] at h3; exact absurd h3 (by simp)
    | some o =>
      rw [hg] at h3
      have hk := (Bool.and_eq_true_iff.mp h3).1
      have hii : idx = i := by simpa using h4
      subst hii
      unfold opKindAt
      rw [hg]
      have : o.kind = SCOpKind.quantize := by simpa using hk
      simp [this]

theorem finalMark_quantize (g : SCGraphQ) (ctx : SCContext) (i : Nat)
    (h : finalMark g ctx i = true) : opKindAt g i = some .quantize := by
  unfold finalMark at h
  obtain ⟨idx, hmem, hstep⟩ := List.any_eq_true.mp h
  exact stepMark_quantize g ctx idx i hstep

end SC

namespace SC

/-- C10: `annotate_fusion_break` never adds or removes any op, edge, or
tensor: with the quantize attribute absent or false the graph is returned
completely unchanged, and otherwise its only mutation is OR-ing
`break_post_fuse` to true exactly on the ops collected by `finalMark` —
quantize ops occurring as Quantize → Dequantize → Add with the Quantize
fed by a Convolution or an Add (`addMark`), or, only under mixed fusion,
as an Add-with-a-Dequantize-input → Relu → Quantize chain (`quantMark`);
kinds, inputs, outputs, op count and the graph attribute are unchanged,
and every marked op is a quantize op. -/
theorem annotate_fusion_break_frame (g : SCGraphQ) (ctx : SCContext) :
    (g.quantizeAttr = false → annotate_fusion_break g ctx = g)
    ∧ (g.quantizeAttr = true →
        annotate_fusion_break g ctx = applyMarks g (finalMark g ctx))
    ∧ (annotate_fusion_break g ctx).quantizeAttr = g.quantizeAttr
    ∧ (annotate_fusion_break g ctx).ops.length = g.ops.length
    ∧ (∀ i : Nat, opKindAt (annotate_fusion_break g ctx) i = opKindAt g i)
    ∧ (∀ i : Nat, ((annotate_fusion_break g ctx).ops[i]?).map (fun o => o.inputs)
        = (g.ops[i]?).map (fun o => o.inputs))
    ∧ (∀ i : Nat, ((annotate_fusion_break g ctx).ops[i]?).map (fun o => o.outputs)
        = (g.ops[i]?).map (fun o => o.outputs))
    ∧ (∀ i : Nat, ((annotate_fusion_break g ctx).ops[i]?).map (fun o => o.break_post_fuse)
        = (g.ops[i]?).map (fun o =>
            o.break_post_fuse || (g.quantizeAttr && finalMark g ctx i)))
    ∧ (∀ i : Nat, finalMark g ctx i = true → opKindAt g i = some SCOpKind.quantize) := by
  have hfalse : g.quantizeAttr = false → annotate_fusion_break g ctx = g := by
    intro h
    unfold annotate_fusion_break
    rw [h]
    rfl
  refine ⟨hfalse, annotate_eq_applyMarks g ctx, ?_, ?_, ?_, ?_, ?_, ?_,
    finalMark_quantize g ctx⟩
  · cases hq : g.quantizeAttr with
    | false => rw [hfalse hq]; exact hq
    | true => rw [annotate_eq_applyMarks g ctx hq]; exact hq
  · cases hq : g.quantizeAttr with
    | false => rw [hfalse hq]
    | true =>
      rw [annotate_eq_applyMarks g ctx hq]
      exact applyMarksList_length _ 0 g.ops
  · intro i
    cases hq : g.quantizeAttr with
    | false => rw [hfalse hq]
    | true => rw [annotate_eq_applyMarks g ctx hq, opKindAt_applyMarks]
  · intro i
    cases hq : g.quantizeAttr with
    | false => rw [hfalse hq]
    | true =>
      rw [annotate_eq_applyMarks g ctx hq, applyMarks_ops_getElem?, Option.map_map]
      cases g.ops[i]? <;> rfl
  · intro i
    cases hq : g.quantizeAttr with
    | false => rw [hfalse hq]
    | true =>
      rw [annotate_eq_applyMarks g ctx hq, applyMarks_ops_getElem?, Option.map_map]
      cases g.ops[i]? <;> rfl
  · intro i
    cases hq : g.quantizeAttr with
    | false =>
      rw [hfalse hq]
      cases g.ops[i]? <;> simp
    | true =>
      rw [annotate_eq_applyMarks g ctx hq, applyMarks_ops_getElem?, Option.map_map]
      cases g.ops[i]? with
      | none => rfl
      | some o => simp [setBreakFlag]

end SC

namespace SC

/-- Witness for the C10 theorem on `scTestGraph`: the pass equals the
mark-application characterization and the marked op (index 1) is a
quantize op. -/
theorem annotate_fusion_break_frame_witness :
    annotate_fusion_break scTestGraph ⟨false⟩
      = applyMarks scTestGraph (finalMark scTestGraph ⟨false⟩)
    ∧ opKindAt scTestGraph 1 = some SCOpKind.quantize :=
  ⟨(annotate_fusion_break_frame scTestGraph ⟨false⟩).2.1 rfl,
   (annotate_fusion_break_frame scTestGraph ⟨false⟩).2.2.2.2.2.2.2.2 1 (by decide)⟩

end SC
